import Mathlib

/-
Verification of the OMR evaluation system: a shallow embedding of the
answer-key normalization, scoring, bubble extraction and preprocessing
code, together with theorems settling the specification claims.

Conventions of the embedding:
  - Python ints are Int or Nat; Python floats are modelled as exact
    rationals; Python list mutation is modelled by explicit state passing.
  - A thresholded image is a structure with a height, a width and a
    boolean pixel predicate (true means foreground, nonzero in the code).
  - The cv2 contour detector called by find_bubble_grid is an external
    library routine; its output, the candidate bubble list, is passed to
    the extraction model as an explicit argument, universally quantified
    in the theorems.
-/

/-! Python string helpers used by the answer key code. -/

/-- Whitespace characters removed by the Python str.strip method. -/
def isPySpace (c : Char) : Bool :=
  c = ' ' || c = '\t' || c = '\n' || c = '\r' || c = '\x0b' || c = '\x0c'

/-- Model of the Python str.strip method on a character list. -/
def pyStrip (l : List Char) : List Char :=
  ((l.dropWhile isPySpace).reverse.dropWhile isPySpace).reverse

/-- Model of the Python str.lower method on a character list (ASCII). -/
def pyLower (l : List Char) : List Char :=
  l.map Char.toLower

/-- Value of a nonempty all-digit character list, none otherwise. -/
def digitsToNat (l : List Char) : Option Nat :=
  if l ≠ [] ∧ l.all Char.isDigit then
    some (l.foldl (fun acc c => 10 * acc + (c.toNat - 48)) 0)
  else none

/-- Model of the Python int constructor on an already stripped string:
an optional sign followed by at least one digit, otherwise a failure. -/
def pyStrToInt (l : List Char) : Option Int :=
  match l with
  | '-' :: rest => (digitsToNat rest).map (fun n => -(n : Int))
  | '+' :: rest => (digitsToNat rest).map (fun n => (n : Int))
  | _ => (digitsToNat l).map (fun n => (n : Int))

/-- Helper for splitDash: prepend a character to the first group. -/
def consHead (c : Char) : List (List Char) → List (List Char)
  | [] => [[c]]
  | g :: gs => (c :: g) :: gs

/-- Model of the Python split method with the three character separator
of space, dash, space, scanning left to right without overlap.
Used by the answer key cleaning loop in app.py lines 489 to 500. -/
def splitDash : List Char → List (List Char)
  | [] => [[]]
  | ' ' :: '-' :: ' ' :: rest => [] :: splitDash rest
  | c :: rest => consHead c (splitDash rest)

/-! Data model of raw answer key entries, as the Python code dispatches
on them by isinstance: strings, ints, floats, and anything else. -/

/-- Raw answer key entry as seen by convert_answer_key_letters. -/
inductive RawAns
  | str : List Char → RawAns
  | int : Int → RawAns
  | float : ℚ → RawAns
  | other : RawAns

/-- Truncation toward zero, the behaviour of the Python int constructor
on a float; floats are modelled as exact rationals. -/
def pyInt (q : ℚ) : Int :=
  if 0 ≤ q then ⌊q⌋ else -⌊-q⌋

/-- The letter table of omr_scoring.py line 9. -/
def letter_map : List (List Char × Int) :=
  [(['a'], 1), (['b'], 2), (['c'], 3), (['d'], 4),
   (['A'], 1), (['B'], 2), (['C'], 3), (['D'], 4)]

/-- Per-entry conversion of omr_scoring.py lines 12 to 35: strings are
stripped and lowercased, looked up in the letter table, else parsed as an
int and kept when within 1 to 4; ints and floats are truncated to int and
kept when within 1 to 4; everything else becomes the default 1. -/
def convertEntry : RawAns → Int
  | RawAns.str s =>
    let ans_clean := pyLower (pyStrip s)
    match List.lookup ans_clean letter_map with
    | some v => v
    | none =>
      match pyStrToInt ans_clean with
      | some n => if 1 ≤ n ∧ n ≤ 4 then n else 1
      | none => 1
  | RawAns.int n => if 1 ≤ n ∧ n ≤ 4 then n else 1
  | RawAns.float q =>
    let ans_int := pyInt q
    if 1 ≤ ans_int ∧ ans_int ≤ 4 then ans_int else 1
  | RawAns.other => 1

/-- Model of convert_answer_key_letters, omr_scoring.py lines 4 to 37. -/
def convert_answer_key_letters (answer_key : List RawAns) : List Int :=
  answer_key.map convertEntry

/-- Model of the per-cell cleaning of string entries in app.py lines
489 to 500: strip, split on the space dash space separator, and when at
least two parts result keep the stripped second part. -/
def clean_answer (ans : List Char) : List Char :=
  let parts := splitDash (pyStrip ans)
  if 2 ≤ parts.length then pyStrip (parts.getD 1 []) else pyStrip ans

/-- Full key normalization of one string cell: the app.py cleaning
followed by the omr_scoring.py letter conversion. -/
def answer_key_normalize (ans : List Char) : Int :=
  convertEntry (RawAns.str (clean_answer ans))

/-! Scoring, omr_scoring.py lines 40 to 99. -/

/-- Count of equal positions of two zipped lists, the inner loop of
calculate_score at omr_scoring.py lines 81 to 84. -/
def countMatches : List Int → List Int → Nat
  | a :: as, b :: bs => (if a = b then 1 else 0) + countMatches as bs
  | _, _ => 0

/-- Length forcing of omr_scoring.py lines 50 to 64: when the length
differs from the expected total, pad with the default 1 by a while loop
and then truncate by slicing. The while loop that appends until the
length reaches the total is written as appending a replicate block. -/
def forceLen (l : List Int) (total : Nat) : List Int :=
  if l.length = total then l
  else (l ++ List.replicate (total - l.length) 1).take total

/-- Model of calculate_score, omr_scoring.py lines 40 to 99: convert the
key, force both lists to the expected total length, slice both into
contiguous per-subject blocks, count matches per block, and sum. -/
def calculate_score (student_answers : List Int) (answer_key : List RawAns)
    (num_subjects questions_per_subject : Nat) : List Nat × Nat :=
  let answer_key_numbers := convert_answer_key_letters answer_key
  let total := num_subjects * questions_per_subject
  let s := forceLen student_answers total
  let k := forceLen answer_key_numbers total
  let subject_scores := (List.range num_subjects).map (fun subject_idx =>
    countMatches ((s.drop (subject_idx * questions_per_subject)).take questions_per_subject)
      ((k.drop (subject_idx * questions_per_subject)).take questions_per_subject))
  (subject_scores, subject_scores.sum)

/-- State of the caller-owned student answer list after calculate_score
returns: the while loop of omr_scoring.py lines 54 to 55 appends the
default 1 to the argument list in place until its length reaches the
expected total; the truncation on line 56 rebinds a local name only and
does not mutate the argument. -/
def student_answers_after_call (student_answers : List Int) (total : Nat) : List Int :=
  if student_answers.length ≠ total then
    student_answers ++ List.replicate (total - student_answers.length) 1
  else student_answers

/-! Image model and region statistics. -/

/-- Thresholded single-channel image: pix r c is true when the pixel at
row r and column c is foreground (nonzero in the code). -/
structure Img where
  height : Nat
  width : Nat
  pix : Nat → Nat → Bool

/-- Number of foreground pixels in the rectangle of rows r0 to r1
exclusive and columns c0 to c1 exclusive, the count_nonzero call. -/
def countFG (img : Img) (r0 r1 c0 c1 : Nat) : Nat :=
  ((List.range (r1 - r0)).map (fun i =>
    ((List.range (c1 - c0)).filter (fun j => img.pix (r0 + i) (c0 + j))).length)).sum

/-- Filled fraction of a rectangular region: foreground pixel count over
total pixel count, and 0 for an empty region, as in omr_bubble_detection
lines 172 to 179 and 257 to 264. -/
def regionFrac (img : Img) (r0 r1 c0 c1 : Nat) : ℚ :=
  if (r1 - r0) * (c1 - c0) = 0 then 0
  else (countFG img r0 r1 c0 c1 : ℚ) / (((r1 - r0) * (c1 - c0) : Nat) : ℚ)

/-! Fixed-grid extraction for the Innomatics sheet,
omr_bubble_detection.py lines 93 to 200. -/

/-- Global question number assigned per subject band, lines 128 to 137:
band 0 gets 1 to 20, band 1 gets 21 to 40, and so on. -/
def questionNum (subject_idx q : Nat) : Nat :=
  if subject_idx = 0 then q + 1
  else if subject_idx = 1 then q + 21
  else if subject_idx = 2 then q + 41
  else if subject_idx = 3 then q + 61
  else q + 81

/-- Vertical row position of a question, lines 140 to 154: initialized
to the sentinel -1 and overwritten by the piecewise quartile formula only
when the global question number is at most 20. -/
def questionRowY (height question_num : Nat) : Int :=
  let rows_per_section : Int := ((height / 25 : Nat) : Int)
  if question_num ≤ 5 then ((question_num : Int) - 1) * rows_per_section
  else if question_num ≤ 10 then
    ((question_num : Int) - 6) * rows_per_section + ((height / 4 : Nat) : Int)
  else if question_num ≤ 15 then
    ((question_num : Int) - 11) * rows_per_section + ((height / 2 : Nat) : Int)
  else if question_num ≤ 20 then
    ((question_num : Int) - 16) * rows_per_section + ((3 * height / 4 : Nat) : Int)
  else -1

/-- Row formula as the specification states it for a question index q
from 1 to 20 inside one band: with k the quartile index, the row center
is (q - 1 - 5k) times the section height plus k times height over 4,
with Python integer division and precedence. -/
def claimRowY (height q : Nat) : Nat :=
  (q - 1 - 5 * ((q - 1) / 5)) * (height / 25) + ((q - 1) / 5) * height / 4

/-- Python max of a list of rationals; the empty case is never used. -/
def pyMax : List ℚ → ℚ
  | [] => 0
  | [x] => x
  | x :: y :: rest => max x (pyMax (y :: rest))

/-- Model of numpy argmax: the first index attaining the maximum. -/
def npArgmax : List ℚ → Nat
  | [] => 0
  | [_] => 0
  | x :: y :: rest => if pyMax (y :: rest) > x then npArgmax (y :: rest) + 1 else 0

/-- Choice selection of the fixed-grid strategy, lines 183 to 187: take
one plus the argmax of the fill fractions when the list is nonempty and
its maximum strictly exceeds 5 percent, else the default 1. -/
def selectInnomatics (fracs : List ℚ) : Nat :=
  if fracs ≠ [] ∧ pyMax fracs > 5 / 100 then npArgmax fracs + 1 else 1

/-- The four per-choice fill fractions of one question in the fixed-grid
strategy, lines 111 to 181: the band column is one fifth of the width,
the question row slice is centered on questionRowY with half a section
above and below clamped to the image, and the row is cut into four
equal-width choice regions. -/
def innomaticsFracs (img : Img) (subject_idx q : Nat) : List ℚ :=
  let col_width := img.width / 5
  let col_start := subject_idx * col_width
  let rows_per_section := img.height / 25
  let y := questionRowY img.height (questionNum subject_idx q)
  let row_start := (max 0 (y - ((rows_per_section / 2 : Nat) : Int))).toNat
  let row_end := (min (img.height : Int) (y + ((rows_per_section / 2 : Nat) : Int))).toNat
  let bubble_width := col_width / 4
  (List.range 4).map (fun choice =>
    regionFrac img row_start row_end
      (col_start + choice * bubble_width) (col_start + (choice + 1) * bubble_width))

/-- Model of extract_bubbles_for_innomatics_sheet, lines 93 to 200:
5 bands of 20 questions each, one selected choice per question, in band
then question order. -/
def extract_bubbles_for_innomatics_sheet (img : Img) : List Nat :=
  ((List.range 5).map (fun subject_idx =>
    (List.range 20).map (fun q =>
      selectInnomatics (innomaticsFracs img subject_idx q)))).flatten

/-! Generic contour extraction, omr_bubble_detection.py lines 58 to 90
and 214 to 297. -/

/-- Bubble candidate as produced by find_bubble_grid: a bounding box. -/
structure Bubble where
  x : Nat
  y : Nat
  w : Nat
  h : Nat
deriving DecidableEq

/-- Center column of a bubble, line 44. -/
def Bubble.center_x (b : Bubble) : Nat := b.x + b.w / 2

/-- Center row of a bubble, line 45. -/
def Bubble.center_y (b : Bubble) : Nat := b.y + b.h / 2

/-- Boolean comparison by center column, for the within-question sort of
lines 78 and 87. -/
def bubbleLE (a b : Bubble) : Bool := a.center_x ≤ b.center_x

/-- Stable sort of a question group by center column. -/
def sortByCenterX (l : List Bubble) : List Bubble := l.mergeSort bubbleLE

/-- Loop of group_bubbles_into_questions, lines 70 to 88: bubbles within
30 rows of the current row join the current group; otherwise the current
group is emitted exactly when its size equals choices_per_question, after
sorting by center column, and a new group starts. The final group is
checked the same way. -/
def groupLoop (choices_per_question : Nat) :
    List Bubble → Nat → List Bubble → List (List Bubble) → List (List Bubble)
  | [], _, current_question, questions =>
    if current_question.length = choices_per_question then
      questions ++ [sortByCenterX current_question]
    else questions
  | b :: rest, current_row_y, current_question, questions =>
    if ((b.center_y : Int) - (current_row_y : Int)).natAbs ≤ 30 then
      groupLoop choices_per_question rest current_row_y (current_question ++ [b]) questions
    else
      groupLoop choices_per_question rest b.center_y [b]
        (if current_question.length = choices_per_question then
          questions ++ [sortByCenterX current_question]
        else questions)

/-- Model of group_bubbles_into_questions, lines 58 to 90. -/
def group_bubbles_into_questions (bubble_contours : List Bubble)
    (choices_per_question : Nat) : List (List Bubble) :=
  match bubble_contours with
  | [] => []
  | b :: _ => groupLoop choices_per_question bubble_contours b.center_y [] []

/-- Fill fraction of one bubble region with a 2 pixel padding clamped to
the image, lines 246 to 264. -/
def bubbleFrac (img : Img) (b : Bubble) : ℚ :=
  regionFrac img (b.y - 2) (min img.height (b.y + b.h + 2))
    (b.x - 2) (min img.width (b.x + b.w + 2))

/-- Choice selection of the generic strategy, lines 268 to 280: the
value at the argmax index must strictly exceed 10 percent, else the
default 1; an empty fraction list also yields the default 1. -/
def selectGeneric (choice_fracs : List ℚ) : Nat :=
  if choice_fracs = [] then 1
  else if choice_fracs.getD (npArgmax choice_fracs) 0 > 1 / 10 then
    npArgmax choice_fracs + 1
  else 1

/-- Answer for one grouped question in the generic strategy, lines 237
to 282: a group whose size differs from choices_per_question falls back
to the default 1, otherwise its bubble fill fractions are classified. -/
def genericAnswer (img : Img) (choices_per_question : Nat) (g : List Bubble) : Nat :=
  if g.length ≠ choices_per_question then 1
  else selectGeneric (g.map (bubbleFrac img))

/-- Pad with the default 1 and truncate to the expected total, lines 288
to 292. -/
def padTrunc (l : List Nat) (total : Nat) : List Nat :=
  (l ++ List.replicate (total - l.length) 1).take total

/-- Model of extract_bubbles_generic, lines 214 to 297. The candidate
list produced by the cv2 contour scan of find_bubble_grid is passed in
explicitly; an empty candidate list returns the all-default sequence. -/
def extract_bubbles_generic (img : Img) (bubble_contours : List Bubble)
    (num_subjects questions_per_subject choices_per_question : Nat) : List Nat :=
  if bubble_contours.length = 0 then
    List.replicate (num_subjects * questions_per_subject) 1
  else
    padTrunc
      ((group_bubbles_into_questions bubble_contours choices_per_question).map
        (genericAnswer img choices_per_question))
      (num_subjects * questions_per_subject)

/-- Model of extract_bubbles, lines 203 to 211: the fixed-grid strategy
for the 5 by 20 by 4 layout, the generic strategy otherwise. -/
def extract_bubbles (img : Img) (bubble_contours : List Bubble)
    (num_subjects questions_per_subject choices_per_question : Nat) : List Nat :=
  if num_subjects = 5 ∧ questions_per_subject = 20 ∧ choices_per_question = 4 then
    extract_bubbles_for_innomatics_sheet img
  else
    extract_bubbles_generic img bubble_contours
      num_subjects questions_per_subject choices_per_question

/-! Preprocessing, omr_preprocessing.py lines 21 to 26. -/

/-- Resized width computed by preprocess_omr: the aspect ratio times the
target height 1200, passed through the Python int constructor, which
truncates toward zero. Floats are modelled as exact rationals. -/
def target_width (original_width original_height : Nat) : Int :=
  let aspect_r : ℚ := (original_width : ℚ) / (original_height : ℚ)
  pyInt ((1200 : ℚ) * aspect_r)

/-- Rounding to the nearest integer with ties to even, the behaviour of
the Python round builtin, stated by the specification for the resize. -/
def pyRound (q : ℚ) : Int :=
  if q - ⌊q⌋ < 1 / 2 then ⌊q⌋
  else if (1 : ℚ) / 2 < q - ⌊q⌋ then ⌊q⌋ + 1
  else if ⌊q⌋ % 2 = 0 then ⌊q⌋ else ⌊q⌋ + 1

/-- All-background image used to instantiate theorems at a concrete
input. -/
def imgBlank : Img :=
  ⟨0, 0, fun _ _ => false⟩

/-! Helper lemmas. -/

theorem length_padTrunc (l : List Nat) (t : Nat) : (padTrunc l t).length = t := by
  simp only [padTrunc, List.length_take, List.length_append, List.length_replicate]
  omega

theorem forceLen_eq (l : List Int) (t : Nat) :
    forceLen l t = l.take t ++ List.replicate (t - l.length) 1 := by
  unfold forceLen
  split
  · rename_i h
    subst h
    simp [List.take_length]
  · rw [List.take_append_eq_append_take, List.take_replicate]
    simp

theorem length_forceLen (l : List Int) (t : Nat) : (forceLen l t).length = t := by
  rw [forceLen_eq]
  simp only [List.length_append, List.length_take, List.length_replicate]
  omega

/-! Claim theorems. -/

/-- Claim C2 (code bug evidence). In the fixed-grid strategy at height
1200: within the first band the row position of question q matches the
piecewise quartile formula of the claim and the 20 positions are strictly
increasing, but in every other band the comparison chain keyed on the
global question number from 21 to 100 never fires, so every question of
bands 2 to 5 keeps the sentinel row position -1 instead of the formula
value. -/
theorem claim2_fixed_grid_rows :
    ((List.range 20).all (fun q =>
        decide (questionRowY 1200 (questionNum 0 q) = (claimRowY 1200 (q + 1) : Int)))) = true
    ∧ ((List.range 19).all (fun q =>
        decide (questionRowY 1200 (questionNum 0 q)
          < questionRowY 1200 (questionNum 0 (q + 1))))) = true
    ∧ ((List.range 4).all (fun b => (List.range 20).all (fun q =>
        decide (questionRowY 1200 (questionNum (b + 1) q) = -1)))) = true := by
  decide

/-- Claim C3. For every image, every candidate list and every layout,
extract_bubbles returns exactly num_subjects times questions_per_subject
answers, and in the generic strategy an empty candidate list yields the
all-default sequence of ones. -/
theorem claim3_full_length_output :
    (∀ (img : Img) (cands : List Bubble) (ns qps cpq : Nat),
      (extract_bubbles img cands ns qps cpq).length = ns * qps)
    ∧ (∀ (img : Img) (ns qps cpq : Nat),
      extract_bubbles_generic img [] ns qps cpq = List.replicate (ns * qps) 1) := by
  constructor
  · intro img cands ns qps cpq
    unfold extract_bubbles
    split
    · rename_i hl
      obtain ⟨h1, h2, _⟩ := hl
      subst h1
      subst h2
      simp only [extract_bubbles_for_innomatics_sheet, List.length_flatten, List.map_map]
      have h20 : (List.length ∘ fun subject_idx =>
          List.map (fun q => selectInnomatics (innomaticsFracs img subject_idx q))
            (List.range 20)) = fun _ => 20 := by
        funext s
        simp
      rw [h20]
      decide
    · unfold extract_bubbles_generic
      split
      · simp
      · exact length_padTrunc _ _
  · intro img ns qps cpq
    simp [extract_bubbles_generic]

/-- Claim C7. calculate_score forces both the student answers and the
converted key to the expected total length, truncating excess and right
padding deficits with the default 1, and returns a per-subject score list
of length num_subjects for inputs of any lengths. -/
theorem claim7_length_forcing : ∀ (student : List Int) (key : List RawAns) (ns qps : Nat),
    forceLen student (ns * qps)
        = student.take (ns * qps) ++ List.replicate (ns * qps - student.length) 1
    ∧ forceLen (convert_answer_key_letters key) (ns * qps)
        = (convert_answer_key_letters key).take (ns * qps)
            ++ List.replicate (ns * qps - key.length) 1
    ∧ (forceLen student (ns * qps)).length = ns * qps
    ∧ (calculate_score student key ns qps).1.length = ns := by
  intro student key ns qps
  have hk : (convert_answer_key_letters key).length = key.length := by
    simp [convert_answer_key_letters]
  refine ⟨forceLen_eq _ _, ?_, length_forceLen _ _, ?_⟩
  · rw [forceLen_eq, hk]
  · simp [calculate_score]

/-- Claim C10. The while loop of calculate_score appends the default 1
to the caller-owned student answer list in place: when the list is
shorter than the expected total the argument object ends up padded to the
total and observably longer; when it is at least the total the argument
object is unchanged. -/
theorem claim10_inplace_padding : ∀ (student : List Int) (ns qps : Nat),
    (student.length < ns * qps →
      student_answers_after_call student (ns * qps)
          = student ++ List.replicate (ns * qps - student.length) 1
      ∧ student.length < (student_answers_after_call student (ns * qps)).length)
    ∧ (ns * qps ≤ student.length → student_answers_after_call student (ns * qps) = student) := by
  intro student ns qps
  constructor
  · intro h
    have hne : student.length ≠ ns * qps := Nat.ne_of_lt h
    refine ⟨by simp [student_answers_after_call, hne], ?_⟩
    simp only [student_answers_after_call, hne, if_pos, ne_eq, not_false_eq_true,
      List.length_append, List.length_replicate]
    omega
  · intro h
    by_cases he : student.length = ns * qps
    · simp [student_answers_after_call, he]
    · have h0 : ns * qps - student.length = 0 := by omega
      simp [student_answers_after_call, he, h0]

/-- Witness for claim C10 at concrete inputs: a 1-element list padded to
total 2 gains an appended default and grows, a 3-element list is left
unchanged. -/
theorem claim10_inplace_padding_w :
    (student_answers_after_call [5] (1 * 2)
        = [5] ++ List.replicate (1 * 2 - ([5] : List Int).length) 1
      ∧ ([5] : List Int).length < (student_answers_after_call [5] (1 * 2)).length)
    ∧ student_answers_after_call [5, 6, 7] (1 * 2) = [5, 6, 7] :=
  ⟨(claim10_inplace_padding [5] 1 2).1 (by decide),
   (claim10_inplace_padding [5, 6, 7] 1 2).2 (by decide)⟩

/-- Claim C8 counterexample. For an original width of 1 and height of
800 the exact quotient is 3 over 2: the code truncates it to 1 while the
round stated by the claim gives 2, so the resize does not round. -/
theorem claim8_counterexample :
    target_width 1 800 = 1
    ∧ pyRound ((1200 : ℚ) * ((1 : ℚ) / (800 : ℚ))) = 2
    ∧ (1 : Int) ≠ 2 := by
  have hq : (1200 : ℚ) * ((1 : ℚ) / (800 : ℚ)) = 3 / 2 := by norm_num
  have hfl : (⌊(3 / 2 : ℚ)⌋ : Int) = 1 := by norm_num
  refine ⟨?_, ?_, by decide⟩
  · have h1 : target_width 1 800 = pyInt (3 / 2 : ℚ) := by
      simp only [target_width]
      norm_num
    rw [h1]
    unfold pyInt
    rw [if_pos (by norm_num)]
    exact hfl
  · unfold pyRound
    rw [hq, hfl]
    norm_num

/-- Claim C8 amended. The resized width equals the floor of the exact
quotient of 1200 times the original width by the original height, that
is Python integer truncation rather than rounding to nearest. -/
theorem claim8_resize_truncates : ∀ (ow oh : Nat), 0 < oh →
    target_width ow oh = ((1200 * ow / oh : Nat) : Int) := by
  intro ow oh _
  have hcast : (1200 : ℚ) * ((ow : ℚ) / (oh : ℚ))
      = ((1200 * ow : Nat) : ℚ) / ((oh : Nat) : ℚ) := by
    push_cast
    ring
  have hnn : (0 : ℚ) ≤ ((1200 * ow : Nat) : ℚ) / ((oh : Nat) : ℚ) := by positivity
  simp only [target_width, pyInt]
  rw [hcast, if_pos hnn, ← Int.natCast_floor_eq_floor hnn, Nat.floor_div_eq_div]

/-- Witness for the amended claim C8 at a concrete input. -/
theorem claim8_resize_truncates_w : target_width 2 3 = ((1200 * 2 / 3 : Nat) : Int) :=
  claim8_resize_truncates 2 3 (by decide)

theorem getD_drop_int (l : List Int) (off j : Nat) (d : Int) :
    (l.drop off).getD j d = l.getD (off + j) d := by
  simp [List.getD_eq_getElem?_getD, List.getElem?_drop]

theorem countMatches_countP : ∀ (q : Nat) (s k : List Int), q ≤ s.length → q ≤ k.length →
    countMatches (s.take q) (k.take q)
      = List.countP (fun j => decide (s.getD j 0 = k.getD j 0)) (List.range q) := by
  intro q
  induction q with
  | zero =>
    intro s k _ _
    simp [countMatches]
  | succ q ih =>
    intro s k hs hk
    cases s with
    | nil => simp at hs
    | cons a as =>
      cases k with
      | nil => simp at hk
      | cons b bs =>
        rw [List.take_succ_cons, List.take_succ_cons]
        have hstep : countMatches (a :: as.take q) (b :: bs.take q)
            = (if a = b then 1 else 0) + countMatches (as.take q) (bs.take q) := rfl
        rw [hstep, ih as bs (by simpa using hs) (by simpa using hk)]
        rw [List.range_succ_eq_map, List.countP_cons, List.countP_map]
        have hp : ((fun j => decide ((a :: as).getD j 0 = (b :: bs).getD j 0)) ∘ Nat.succ)
            = (fun j => decide (as.getD j 0 = bs.getD j 0)) := by
          funext j
          simp
        rw [hp]
        have h0 : (decide ((a :: as).getD 0 0 = (b :: bs).getD 0 0)) = decide (a = b) := by
          simp
        rw [h0]
        by_cases hab : a = b
        · simp [hab, Nat.add_comm]
        · simp [hab]

theorem countMatches_block (s k : List Int) (off q : Nat)
    (hs : off + q ≤ s.length) (hk : off + q ≤ k.length) :
    countMatches ((s.drop off).take q) ((k.drop off).take q)
      = ((List.range q).filter (fun j => s.getD (off + j) 0 = k.getD (off + j) 0)).length := by
  rw [← List.countP_eq_length_filter]
  have h1 : q ≤ (s.drop off).length := by
    rw [List.length_drop]
    omega
  have h2 : q ≤ (k.drop off).length := by
    rw [List.length_drop]
    omega
  rw [countMatches_countP q _ _ h1 h2]
  simp only [getD_drop_int]

/-- Claim C1. On the literal example with two subjects of three questions
the per-subject scores are 2 and 2 with total 4; and in general, for
student and key sequences of the expected length, the per-subject score
at index i is the number of positions inside the i-th contiguous block of
questions_per_subject entries where the student answer equals the
converted key answer, and the total is the sum of the per-subject
scores. -/
theorem claim1_score_blocks :
    calculate_score [1, 2, 3, 1, 1, 1]
        [RawAns.int 1, RawAns.int 1, RawAns.int 3, RawAns.int 1, RawAns.int 2, RawAns.int 1]
        2 3 = ([2, 2], 4)
    ∧ ∀ (student : List Int) (key : List RawAns) (ns qps : Nat),
        student.length = ns * qps → key.length = ns * qps →
        (∀ i, i < ns →
          (calculate_score student key ns qps).1.getD i 0
            = ((List.range qps).filter (fun j =>
                student.getD (i * qps + j) 0
                  = (convert_answer_key_letters key).getD (i * qps + j) 0)).length)
        ∧ (calculate_score student key ns qps).2
            = (calculate_score student key ns qps).1.sum := by
  constructor
  · decide
  · intro student key ns qps hs hk
    have hkey : (convert_answer_key_letters key).length = ns * qps := by
      simp [convert_answer_key_letters, hk]
    constructor
    · intro i hi
      have hfs : forceLen student (ns * qps) = student := by
        simp [forceLen, hs]
      have hfk : forceLen (convert_answer_key_letters key) (ns * qps)
          = convert_answer_key_letters key := by
        simp [forceLen, hkey]
      simp only [calculate_score, hfs, hfk]
      rw [List.getD_eq_getElem?_getD, List.getElem?_map, List.getElem?_range hi]
      simp only [Option.map_some', Option.getD_some]
      have hb : i * qps + qps ≤ ns * qps := by
        have h1 : (i + 1) * qps ≤ ns * qps := Nat.mul_le_mul_right qps (by omega)
        calc i * qps + qps = (i + 1) * qps := by ring
          _ ≤ ns * qps := h1
      exact countMatches_block student (convert_answer_key_letters key) (i * qps) qps
        (by rw [hs]; exact hb) (by rw [hkey]; exact hb)
    · rfl

/-- Witness for claim C1: the general block characterization applied to
the literal example at subject index 0. -/
theorem claim1_score_blocks_w :
    (calculate_score [1, 2, 3, 1, 1, 1]
        [RawAns.int 1, RawAns.int 1, RawAns.int 3, RawAns.int 1, RawAns.int 2, RawAns.int 1]
        2 3).1.getD 0 0
      = ((List.range 3).filter (fun j =>
          ([1, 2, 3, 1, 1, 1] : List Int).getD (0 * 3 + j) 0
            = (convert_answer_key_letters
                [RawAns.int 1, RawAns.int 1, RawAns.int 3, RawAns.int 1,
                  RawAns.int 2, RawAns.int 1]).getD (0 * 3 + j) 0)).length :=
  (claim1_score_blocks.2 [1, 2, 3, 1, 1, 1]
      [RawAns.int 1, RawAns.int 1, RawAns.int 3, RawAns.int 1, RawAns.int 2, RawAns.int 1]
      2 3 (by decide) (by decide)).1 0 (by decide)

/-- Claim C4 counterexample. The numeric range check of the key
normalizer is hard coded to 1 to 4 and takes no layout parameter: for a
declared layout with choices_per_question equal to 5 the entry 5 lies
within 1 to choices_per_question, yet both the int form and the string
form of the entry are mapped to the default 1 rather than passed through
as 5. -/
theorem claim4_counterexample :
    convert_answer_key_letters [RawAns.int 5] = [1]
    ∧ convert_answer_key_letters [RawAns.str ['5']] = [1]
    ∧ ((1 : Int) ≤ 5 ∧ (5 : Int) ≤ 5)
    ∧ ([1] : List Int) ≠ [5] := by
  refine ⟨by decide, by decide, by decide, by decide⟩

/-- Claim C4 amended. Key normalization maps each entry independently
and never raises: exactly one value per entry; letters a to d in either
case map to 1 to 4; numeric strings and numeric values pass through
exactly when their truncated integer value lies in the fixed range 1 to
4, independent of the declared choices_per_question; every other entry
maps to the default 1. -/
theorem claim4_key_normalization_fixed_range :
    (∀ key : List RawAns, (convert_answer_key_letters key).length = key.length)
    ∧ (∀ n : Int, convertEntry (RawAns.int n) = if 1 ≤ n ∧ n ≤ 4 then n else 1)
    ∧ convert_answer_key_letters
        [RawAns.str ['a'], RawAns.str ['b'], RawAns.str ['c'], RawAns.str ['d'],
          RawAns.str ['A'], RawAns.str ['B'], RawAns.str ['C'], RawAns.str ['D'],
          RawAns.str ['1'], RawAns.str ['2'], RawAns.str ['3'], RawAns.str ['4']]
        = [1, 2, 3, 4, 1, 2, 3, 4, 1, 2, 3, 4]
    ∧ convert_answer_key_letters
        [RawAns.str ['e'], RawAns.str ['5'], RawAns.str [], RawAns.other,
          RawAns.str [' ', 'B', ' '], RawAns.str ['-', '1']]
        = [1, 1, 1, 1, 2, 1]
    ∧ convertEntry (RawAns.float (79 / 10)) = 1
    ∧ convertEntry (RawAns.float (5 / 2)) = 2 := by
  have h79 : pyInt (79 / 10 : ℚ) = 7 := by
    unfold pyInt
    rw [if_pos (by norm_num)]
    norm_num
  have h52 : pyInt (5 / 2 : ℚ) = 2 := by
    unfold pyInt
    rw [if_pos (by norm_num)]
    norm_num
  refine ⟨?_, ?_, by decide, by decide, ?_, ?_⟩
  · intro key
    simp [convert_answer_key_letters]
  · intro n
    rfl
  · simp only [convertEntry, h79]
    decide
  · simp only [convertEntry, h52]
    decide

theorem splitDash_cons_ne (c : Char) (rest : List Char) (h : c ≠ ' ') :
    splitDash (c :: rest) = consHead c (splitDash rest) := by
  rw [splitDash.eq_def]
  split
  · simp_all
  · rename_i heq
    rw [List.cons.injEq] at heq
    exact absurd heq.1 h
  · rename_i c2 rest2 heq
    rw [List.cons.injEq] at heq
    rw [heq.1, heq.2]

theorem splitDash_singleton (c : Char) : splitDash [c] = [[c]] := by
  by_cases h : c = ' '
  · subst h
    rfl
  · rw [splitDash_cons_ne c [] h]
    rfl

theorem splitDash_sep (letter : Char) :
    ∀ (label : List Char), label ≠ [] → (∀ c ∈ label, c ≠ ' ') →
      splitDash (label ++ ' ' :: '-' :: ' ' :: [letter]) = [label, [letter]] := by
  intro label
  induction label with
  | nil =>
    intro h _
    exact absurd rfl h
  | cons d rest ih =>
    intro _ hcs
    have hd : d ≠ ' ' := hcs d (by simp)
    rw [List.cons_append, splitDash_cons_ne d _ hd]
    cases rest with
    | nil =>
      rw [List.nil_append]
      rw [show splitDash (' ' :: '-' :: ' ' :: [letter]) = [] :: splitDash [letter] from rfl]
      rw [splitDash_singleton]
      rfl
    | cons d2 rest2 =>
      rw [ih (by simp) (fun c hc => hcs c (by simp [hc]))]
      rfl

theorem pyStrip_sandwich (a b : Char) (mid : List Char)
    (ha : isPySpace a = false) (hb : isPySpace b = false) :
    pyStrip (a :: (mid ++ [b])) = a :: (mid ++ [b]) := by
  unfold pyStrip
  have h1 : (a :: (mid ++ [b])).dropWhile isPySpace = a :: (mid ++ [b]) := by
    simp [List.dropWhile_cons, ha]
  rw [h1]
  have h2 : (a :: (mid ++ [b])).reverse = b :: (mid.reverse ++ [a]) := by
    simp
  rw [h2]
  have h3 : (b :: (mid.reverse ++ [a])).dropWhile isPySpace = b :: (mid.reverse ++ [a]) := by
    simp [List.dropWhile_cons, hb]
  rw [h3]
  simp

theorem pyStrip_single (c : Char) (hc : isPySpace c = false) : pyStrip [c] = [c] := by
  unfold pyStrip
  simp [List.dropWhile_cons, hc]

theorem digit_not_pyspace (c : Char) (h : c.isDigit = true) : isPySpace c = false := by
  cases hps : isPySpace c with
  | false => rfl
  | true =>
    exfalso
    unfold isPySpace at hps
    simp only [Bool.or_eq_true, decide_eq_true_eq] at hps
    rcases hps with ((((h1 | h1) | h1) | h1) | h1) | h1 <;> subst h1 <;>
      exact absurd h (by decide)

/-- Claim C5. Key entries of the label dash letter form have the letter
portion extracted before letter mapping: for every nonempty digit label
and every answer letter the normalization of the combined cell equals the
normalization of the bare letter, and on the literal example both
normalize to 3. -/
theorem claim5_label_letter_extraction :
    (∀ (label : List Char) (letter : Char), label ≠ [] →
      (∀ c ∈ label, c.isDigit = true) →
      letter ∈ ['a', 'b', 'c', 'd', 'A', 'B', 'C', 'D'] →
      answer_key_normalize (label ++ ' ' :: '-' :: ' ' :: [letter])
        = answer_key_normalize [letter])
    ∧ answer_key_normalize ['3', ' ', '-', ' ', 'c'] = 3
    ∧ answer_key_normalize ['c'] = 3 := by
  refine ⟨?_, by decide, by decide⟩
  intro label letter hne hdig hlet
  have hnospace : ∀ c ∈ label, c ≠ ' ' := by
    intro c hc heq
    have hd := hdig c hc
    rw [heq] at hd
    exact absurd hd (by decide)
  have hletns : isPySpace letter = false := by
    simp only [List.mem_cons, List.not_mem_nil, or_false] at hlet
    rcases hlet with h | h | h | h | h | h | h | h <;> subst h <;> decide
  obtain ⟨d, rest, rfl⟩ : ∃ d rest, label = d :: rest := by
    cases label with
    | nil => exact absurd rfl hne
    | cons d rest => exact ⟨d, rest, rfl⟩
  have hd : isPySpace d = false := digit_not_pyspace d (hdig d (by simp))
  have hform : (d :: rest) ++ ' ' :: '-' :: ' ' :: [letter]
      = d :: ((rest ++ [' ', '-', ' ']) ++ [letter]) := by
    simp
  have hstrip : pyStrip ((d :: rest) ++ ' ' :: '-' :: ' ' :: [letter])
      = (d :: rest) ++ ' ' :: '-' :: ' ' :: [letter] := by
    rw [hform]
    exact pyStrip_sandwich d letter _ hd hletns
  have hsp : splitDash ((d :: rest) ++ ' ' :: '-' :: ' ' :: [letter])
      = [d :: rest, [letter]] :=
    splitDash_sep letter (d :: rest) (by simp) hnospace
  have hcc : clean_answer ((d :: rest) ++ ' ' :: '-' :: ' ' :: [letter])
      = clean_answer [letter] := by
    simp only [clean_answer]
    rw [hstrip, hsp, pyStrip_single letter hletns, splitDash_singleton]
    simp [pyStrip_single letter hletns]
  unfold answer_key_normalize
  rw [hcc]

/-- Witness for claim C5: the general extraction statement applied to
the label 3 with the letter c. -/
theorem claim5_label_letter_extraction_w :
    answer_key_normalize (['3'] ++ ' ' :: '-' :: ' ' :: ['c']) = answer_key_normalize ['c'] :=
  claim5_label_letter_extraction.1 ['3'] 'c' (by decide) (by decide) (by decide)

theorem getD_npArgmax : ∀ (l : List ℚ), l ≠ [] → l.getD (npArgmax l) 0 = pyMax l := by
  intro l
  induction l with
  | nil =>
    intro h
    exact absurd rfl h
  | cons x xs ih =>
    intro _
    cases xs with
    | nil => rfl
    | cons y rest =>
      rw [show npArgmax (x :: y :: rest)
          = if pyMax (y :: rest) > x then npArgmax (y :: rest) + 1 else 0 from rfl]
      rw [show pyMax (x :: y :: rest) = max x (pyMax (y :: rest)) from rfl]
      by_cases h : pyMax (y :: rest) > x
      · rw [if_pos h, List.getD_cons_succ, ih (by simp)]
        exact (max_eq_right (le_of_lt h)).symm
      · rw [if_neg h, List.getD_cons_zero]
        exact (max_eq_left (not_lt.1 h)).symm

theorem npArgmax_indexOf : ∀ (l : List ℚ), l ≠ [] → npArgmax l = l.indexOf (pyMax l) := by
  intro l
  induction l with
  | nil =>
    intro h
    exact absurd rfl h
  | cons x xs ih =>
    intro _
    cases xs with
    | nil => simp [npArgmax, pyMax, List.indexOf_cons]
    | cons y rest =>
      rw [show npArgmax (x :: y :: rest)
          = if pyMax (y :: rest) > x then npArgmax (y :: rest) + 1 else 0 from rfl]
      rw [show pyMax (x :: y :: rest) = max x (pyMax (y :: rest)) from rfl]
      by_cases h : pyMax (y :: rest) > x
      · rw [if_pos h, max_eq_right (le_of_lt h)]
        have hne : (x == pyMax (y :: rest)) = false := by
          simp only [beq_eq_false_iff_ne, ne_eq]
          exact ne_of_lt h
        have hrhs : List.indexOf (pyMax (y :: rest)) (x :: y :: rest)
            = List.indexOf (pyMax (y :: rest)) (y :: rest) + 1 := by
          rw [List.indexOf_cons, hne]
          rfl
        rw [hrhs, ih (by simp)]
      · rw [if_neg h, max_eq_left (not_lt.1 h), List.indexOf_cons]
        simp

/-- Claim C6. The fill classifier: on the literal fraction lists of the
specification the fixed-grid selection at threshold 5 percent picks
choice 2 and choice 1 respectively; in general, for a nonempty fraction
list both strategies select one plus the first index of the maximum
fraction exactly when that maximum strictly exceeds their threshold,
5 percent for the fixed grid and 10 percent for the generic strategy,
and the default 1 otherwise; the empty list and an empty region resolve
to the default as well, and each fixed-grid question classifies exactly
four region fractions. -/
theorem claim6_fill_classifier :
    selectInnomatics [2 / 100, 8 / 100, 1 / 100, 0] = 2
    ∧ selectInnomatics [2 / 100, 3 / 100, 1 / 100, 0] = 1
    ∧ (∀ fracs : List ℚ, fracs ≠ [] →
        selectInnomatics fracs
            = (if pyMax fracs > 5 / 100 then fracs.indexOf (pyMax fracs) + 1 else 1)
        ∧ selectGeneric fracs
            = (if pyMax fracs > 1 / 10 then fracs.indexOf (pyMax fracs) + 1 else 1))
    ∧ selectInnomatics [] = 1 ∧ selectGeneric [] = 1
    ∧ (∀ (img : Img) (r0 c0 c1 : Nat), regionFrac img r0 r0 c0 c1 = 0)
    ∧ (∀ (img : Img) (subject_idx q : Nat), (innomaticsFracs img subject_idx q).length = 4) := by
  refine ⟨?_, ?_, ?_, by simp [selectInnomatics], by simp [selectGeneric], ?_, ?_⟩
  · unfold selectInnomatics
    rw [if_pos ⟨by simp, by norm_num [pyMax]⟩]
    norm_num [npArgmax, pyMax]
  · unfold selectInnomatics
    rw [if_neg (fun hc => absurd hc.2 (by norm_num [pyMax]))]
  · intro fracs h
    constructor
    · unfold selectInnomatics
      by_cases hm : pyMax fracs > 5 / 100
      · rw [if_pos ⟨h, hm⟩, if_pos hm, npArgmax_indexOf fracs h]
      · rw [if_neg (fun hc => hm hc.2), if_neg hm]
    · unfold selectGeneric
      rw [if_neg h, getD_npArgmax fracs h, npArgmax_indexOf fracs h]
  · intro img r0 c0 c1
    simp [regionFrac]
  · intro img subject_idx q
    simp [innomaticsFracs]

/-- Witness for claim C6: the general characterization applied to a
concrete two-element fraction list. -/
theorem claim6_fill_classifier_w :
    selectInnomatics [(1 : ℚ), 0]
        = (if pyMax [(1 : ℚ), 0] > 5 / 100
            then ([(1 : ℚ), 0]).indexOf (pyMax [(1 : ℚ), 0]) + 1 else 1)
    ∧ selectGeneric [(1 : ℚ), 0]
        = (if pyMax [(1 : ℚ), 0] > 1 / 10
            then ([(1 : ℚ), 0]).indexOf (pyMax [(1 : ℚ), 0]) + 1 else 1) :=
  claim6_fill_classifier.2.2.1 [(1 : ℚ), 0] (List.cons_ne_nil _ _)

theorem sortByCenterX_length (l : List Bubble) : (sortByCenterX l).length = l.length := by
  simp [sortByCenterX, List.length_mergeSort]

theorem sortByCenterX_pairwise (l : List Bubble) :
    List.Pairwise (fun a b => a.center_x ≤ b.center_x) (sortByCenterX l) := by
  have htrans : ∀ (a b c : Bubble),
      bubbleLE a b = true → bubbleLE b c = true → bubbleLE a c = true := by
    intro a b c hab hbc
    simp only [bubbleLE, decide_eq_true_eq] at *
    omega
  have htotal : ∀ (a b : Bubble), (bubbleLE a b || bubbleLE b a) = true := by
    intro a b
    simp only [bubbleLE, Bool.or_eq_true, decide_eq_true_eq]
    omega
  have h := @List.sorted_mergeSort Bubble bubbleLE htrans htotal l
  exact h.imp (by
    intro a b hb
    simpa [bubbleLE, decide_eq_true_eq] using hb)

theorem groupLoop_invariant (cpq : Nat) :
    ∀ (rest : List Bubble) (row_y : Nat) (cur : List Bubble) (acc : List (List Bubble)),
      (∀ g ∈ acc, g.length = cpq ∧ List.Pairwise (fun a b => a.center_x ≤ b.center_x) g) →
      ∀ g ∈ groupLoop cpq rest row_y cur acc,
        g.length = cpq ∧ List.Pairwise (fun a b => a.center_x ≤ b.center_x) g := by
  intro rest
  induction rest with
  | nil =>
    intro row_y cur acc hacc g hg
    simp only [groupLoop] at hg
    split at hg
    · rename_i hlen
      rcases List.mem_append.1 hg with h | h
      · exact hacc g h
      · rw [List.mem_singleton] at h
        subst h
        exact ⟨by rw [sortByCenterX_length]; exact hlen, sortByCenterX_pairwise cur⟩
    · exact hacc g hg
  | cons b rest2 ih =>
    intro row_y cur acc hacc g hg
    simp only [groupLoop] at hg
    split at hg
    · exact ih row_y (cur ++ [b]) acc hacc g hg
    · refine ih b.center_y [b] _ ?_ g hg
      intro g2 hg2
      split at hg2
      · rename_i hlen
        rcases List.mem_append.1 hg2 with h | h
        · exact hacc g2 h
        · rw [List.mem_singleton] at h
          subst h
          exact ⟨by rw [sortByCenterX_length]; exact hlen, sortByCenterX_pairwise cur⟩
      · exact hacc g2 hg2

/-- Claim C9. Every group emitted by group_bubbles_into_questions has
exactly choices_per_question bubbles, sorted by center column; as a
consequence the malformed-question fallback branch of the generic
extraction never fires on an emitted group: the answer always comes from
the fill classification of the group. -/
theorem claim9_groups_well_formed :
    ∀ (bubbles : List Bubble) (cpq : Nat) (img : Img) (g : List Bubble),
      g ∈ group_bubbles_into_questions bubbles cpq →
      g.length = cpq
      ∧ List.Pairwise (fun a b => a.center_x ≤ b.center_x) g
      ∧ genericAnswer img cpq g = selectGeneric (g.map (bubbleFrac img)) := by
  intro bubbles cpq img g hg
  have hbase : g.length = cpq ∧ List.Pairwise (fun a b => a.center_x ≤ b.center_x) g := by
    cases bubbles with
    | nil => simp [group_bubbles_into_questions] at hg
    | cons b rest =>
      exact groupLoop_invariant cpq (b :: rest) b.center_y [] [] (by simp) g hg
  refine ⟨hbase.1, hbase.2, ?_⟩
  unfold genericAnswer
  rw [if_neg (by simp [hbase.1])]

/-- Witness for claim C9: a single candidate bubble with one choice per
question forms the single emitted group. -/
theorem claim9_groups_well_formed_w :
    (([⟨0, 0, 10, 10⟩] : List Bubble)).length = 1
    ∧ List.Pairwise (fun a b => a.center_x ≤ b.center_x) ([⟨0, 0, 10, 10⟩] : List Bubble)
    ∧ genericAnswer imgBlank 1 [⟨0, 0, 10, 10⟩]
        = selectGeneric (([⟨0, 0, 10, 10⟩] : List Bubble).map (bubbleFrac imgBlank)) :=
  claim9_groups_well_formed [⟨0, 0, 10, 10⟩] 1 imgBlank [⟨0, 0, 10, 10⟩] (by
    simp [group_bubbles_into_questions, groupLoop, sortByCenterX, List.mergeSort_singleton])
